import Mathlib

/-!
Verification development for the BusTub buffer pool manager
(`src/buffer/buffer_pool_manager.cpp`).

The buffer pool manager state is embedded shallowly: the frame array
becomes a `List Page`, the page table and the on-disk page store become
association lists from `Int` page identifiers, and every public
operation becomes a pure function returning its result, the successor
state, and the list of disk operations it issued.

The collaborators whose sources are not part of the repository snapshot
(the `Page` entity, the `DiskManager`, and the `ClockReplacer`) are
modelled from the specification's collaborator contracts; each such
definition says so in its doc comment.
-/

namespace BusTub

/-- Disk events issued by the buffer pool manager, in program order. -/
inductive DiskOp where
  | readE (pid : Int)
  | writeE (pid : Int) (data : Nat)
  | allocE (pid : Int)
  | deallocE (pid : Int)
deriving DecidableEq

/-- Modelled from the spec: the sentinel "invalid" page identifier held by
a frame that stores no page. -/
def INVALID_PAGE_ID : Int := -1

/-- Modelled from the spec: a page frame — persistent identifier, pin
count, dirty flag, and the page's buffer contents (the fixed-size byte
array is abstracted to a single `Nat`, with `0` standing for the
all-zero buffer produced by `ResetMemory`). -/
structure Page where
  page_id_ : Int
  pin_count_ : Int
  is_dirty_ : Bool
  data_ : Nat
deriving DecidableEq

/-- Modelled from the spec: a freshly constructed frame holds the
sentinel identifier, zero pins, a clear dirty flag, and a zeroed buffer. -/
def defaultPage : Page :=
  { page_id_ := INVALID_PAGE_ID, pin_count_ := 0, is_dirty_ := false, data_ := 0 }

/-! Association lists from `Int` keys to `Nat` values, used for the page
table (identifier to frame slot) and the disk image (identifier to
stored contents). `alErase` removes every entry with the given key;
for tables with unique keys this coincides with `unordered_map::erase`. -/

def alFind : List (Int × Nat) → Int → Option Nat
  | [], _ => none
  | e :: r, k => if e.1 = k then some e.2 else alFind r k

def alErase (t : List (Int × Nat)) (k : Int) : List (Int × Nat) :=
  t.filter (fun e => e.1 ≠ k)

def alInsert (t : List (Int × Nat)) (k : Int) (v : Nat) : List (Int × Nat) :=
  (k, v) :: alErase t k

/-- Modelled from the spec: the persistent-store collaborator. `pages_`
is the disk image; `next_page_id_` backs `AllocatePage`, which returns a
fresh, previously unused identifier. -/
structure DiskManager where
  pages_ : List (Int × Nat)
  next_page_id_ : Int
deriving DecidableEq

/-- Modelled from the spec: `write_page(identifier, buffer)`. -/
def WritePage (d : DiskManager) (pid : Int) (data : Nat) : DiskManager :=
  { d with pages_ := alInsert d.pages_ pid data }

/-- Modelled from the spec: `read_page(identifier) -> buffer`; a page
never written reads back as zeros. -/
def ReadPage (d : DiskManager) (pid : Int) : Nat :=
  (alFind d.pages_ pid).getD 0

/-- Modelled from the spec: `allocate_page() -> identifier`. -/
def AllocatePage (d : DiskManager) : Int × DiskManager :=
  (d.next_page_id_, { d with next_page_id_ := d.next_page_id_ + 1 })

/-! Modelled from the spec: the eviction-candidate chooser
(`ClockReplacer`), kept as the ordered list of eviction-eligible frame
slots. `pin` marks a slot ineligible, `unpin` marks it eligible, and
`Victim` hands out one eligible slot (here: the oldest). -/

def replacerPin (r : List Nat) (f : Nat) : List Nat :=
  r.filter (fun x => x ≠ f)

def replacerUnpin (r : List Nat) (f : Nat) : List Nat :=
  if f ∈ r then r else r ++ [f]

/-! The frame array, indexed by frame slot. Out-of-range reads return
the default frame and out-of-range writes are dropped; every slot index
the manager uses stays below the pool size. -/

def getPage : List Page → Nat → Page
  | [], _ => defaultPage
  | p :: _, 0 => p
  | _ :: r, Nat.succ i => getPage r i

def setPage : List Page → Nat → Page → List Page
  | [], _, _ => []
  | _ :: r, 0, p => p :: r
  | q :: r, Nat.succ i, p => q :: setPage r i p

/-- The buffer pool manager's state: frame array, page table, free
list, the chooser's eligible set, and the persistent store. -/
structure BufferPoolManager where
  pages_ : List Page
  page_table_ : List (Int × Nat)
  free_list_ : List Nat
  replacer_ : List Nat
  disk_ : DiskManager
deriving DecidableEq

/-- The constructor: `pool_size` default frames, every slot on the free
list, nothing resident, and a fresh disk. -/
def initBPM (pool_size : Nat) : BufferPoolManager :=
  { pages_ := List.replicate pool_size defaultPage
    page_table_ := []
    free_list_ := List.range pool_size
    replacer_ := []
    disk_ := { pages_ := [], next_page_id_ := 0 } }

/-- `BufferPoolManager::GetVictimPage`: pop the free list front if
non-empty, otherwise ask the replacer for a victim. -/
def GetVictimPage (s : BufferPoolManager) : Option Nat × BufferPoolManager :=
  match s.free_list_ with
  | [] =>
    match s.replacer_ with
    | [] => (none, s)
    | f :: rest => (some f, { s with replacer_ := rest })
  | f :: rest => (some f, { s with free_list_ := rest })

/-- `BufferPoolManager::FetchPageImpl`: on a hit, pin the frame in the
replacer and increment its pin count; on a miss, take a victim, write it
back if dirty, erase its old identifier from the page table, install the
requested identifier with pin count 1, and read the page in. The
frame's dirty flag is left as it was. -/
def FetchPageImpl (s : BufferPoolManager) (page_id : Int) :
    Option Nat × BufferPoolManager × List DiskOp :=
  match alFind s.page_table_ page_id with
  | some frame_id =>
    let pg := getPage s.pages_ frame_id
    (some frame_id,
      { s with replacer_ := replacerPin s.replacer_ frame_id
               pages_ := setPage s.pages_ frame_id { pg with pin_count_ := pg.pin_count_ + 1 } },
      [])
  | none =>
    match GetVictimPage s with
    | (none, s1) => (none, s1, [])
    | (some frame_id, s1) =>
      let pg := getPage s1.pages_ frame_id
      let disk1 := if pg.is_dirty_ then WritePage s1.disk_ pg.page_id_ pg.data_ else s1.disk_
      let tr1 : List DiskOp := if pg.is_dirty_ then [DiskOp.writeE pg.page_id_ pg.data_] else []
      let table1 := alInsert (alErase s1.page_table_ pg.page_id_) page_id frame_id
      let pg1 : Page :=
        { page_id_ := page_id, pin_count_ := 1, is_dirty_ := pg.is_dirty_
          data_ := ReadPage disk1 page_id }
      (some frame_id,
        { s1 with disk_ := disk1, page_table_ := table1
                  pages_ := setPage s1.pages_ frame_id pg1 },
        tr1 ++ [DiskOp.readE page_id])

/-- `BufferPoolManager::UnpinPageImpl`: if resident, decrement the pin
count when positive; if the pin count is then zero, write the page back
when the caller signalled dirty, hand the frame to the replacer, erase
the identifier from the page table, and return true; otherwise return
false. The frame's dirty flag is never modified. -/
def UnpinPageImpl (s : BufferPoolManager) (page_id : Int) (is_dirty : Bool) :
    Bool × BufferPoolManager × List DiskOp :=
  match alFind s.page_table_ page_id with
  | none => (false, s, [])
  | some frame_id =>
    let pg := getPage s.pages_ frame_id
    let pg1 := if 0 < pg.pin_count_ then { pg with pin_count_ := pg.pin_count_ - 1 } else pg
    if pg1.pin_count_ = 0 then
      let disk1 := if is_dirty then WritePage s.disk_ pg1.page_id_ pg1.data_ else s.disk_
      let tr1 : List DiskOp := if is_dirty then [DiskOp.writeE pg1.page_id_ pg1.data_] else []
      (true,
        { s with pages_ := setPage s.pages_ frame_id pg1
                 disk_ := disk1
                 replacer_ := replacerUnpin s.replacer_ frame_id
                 page_table_ := alErase s.page_table_ page_id },
        tr1)
    else
      (false, { s with pages_ := setPage s.pages_ frame_id pg1 }, [])

/-- `BufferPoolManager::FlushPageImpl`: if resident, write the buffer
under the requested identifier unconditionally, hand the frame to the
replacer, and erase the identifier from the page table. -/
def FlushPageImpl (s : BufferPoolManager) (page_id : Int) :
    Bool × BufferPoolManager × List DiskOp :=
  match alFind s.page_table_ page_id with
  | none => (false, s, [])
  | some frame_id =>
    let pg := getPage s.pages_ frame_id
    (true,
      { s with disk_ := WritePage s.disk_ page_id pg.data_
               replacer_ := replacerUnpin s.replacer_ frame_id
               page_table_ := alErase s.page_table_ page_id },
      [DiskOp.writeE page_id pg.data_])

/-- `BufferPoolManager::NewPageImpl`: take a victim, allocate a fresh
identifier, set the frame's pin count to 0 and zero its buffer, and
insert the identifier into the page table. No dirty-victim write-back,
no erasure of the victim's old identifier, and no disk read occur. -/
def NewPageImpl (s : BufferPoolManager) :
    Option (Nat × Int) × BufferPoolManager × List DiskOp :=
  match GetVictimPage s with
  | (none, s1) => (none, s1, [])
  | (some frame_id, s1) =>
    let (new_id, disk1) := AllocatePage s1.disk_
    let pg := getPage s1.pages_ frame_id
    let pg1 : Page :=
      { page_id_ := new_id, pin_count_ := 0, is_dirty_ := pg.is_dirty_, data_ := 0 }
    (some (frame_id, new_id),
      { s1 with disk_ := disk1
                pages_ := setPage s1.pages_ frame_id pg1
                page_table_ := alInsert s1.page_table_ new_id frame_id },
      [DiskOp.allocE new_id])

/-- `BufferPoolManager::DeletePageImpl`: absent pages succeed trivially;
pinned pages fail with no state change; otherwise the entry is erased,
the frame metadata reset, and the slot appended to the free list. The
code issues no `DeallocatePage` call. -/
def DeletePageImpl (s : BufferPoolManager) (page_id : Int) :
    Bool × BufferPoolManager × List DiskOp :=
  match alFind s.page_table_ page_id with
  | none => (true, s, [])
  | some frame_id =>
    let pg := getPage s.pages_ frame_id
    if 0 < pg.pin_count_ then (false, s, [])
    else
      (true,
        { s with page_table_ := alErase s.page_table_ page_id
                 pages_ := setPage s.pages_ frame_id
                   { pg with pin_count_ := 0, is_dirty_ := false, page_id_ := INVALID_PAGE_ID }
                 free_list_ := s.free_list_ ++ [frame_id] },
        [])

/-- The loop body of `FlushAllPagesImpl`, walking the page table
entries: write each resident page under its identifier and hand its
frame to the replacer. -/
def flushAllGo (s : BufferPoolManager) (l : List (Int × Nat)) (tr : List DiskOp) :
    BufferPoolManager × List DiskOp :=
  match l with
  | [] => (s, tr)
  | e :: r =>
    let pg := getPage s.pages_ e.2
    flushAllGo
      { s with disk_ := WritePage s.disk_ e.1 pg.data_
               replacer_ := replacerUnpin s.replacer_ e.2 }
      r (tr ++ [DiskOp.writeE e.1 pg.data_])

/-- `BufferPoolManager::FlushAllPagesImpl`: write every resident page,
notify the replacer for each, then clear the page table. Frames are not
returned to the free list. -/
def FlushAllPagesImpl (s : BufferPoolManager) : BufferPoolManager × List DiskOp :=
  let r := flushAllGo s s.page_table_ []
  ({ r.1 with page_table_ := [] }, r.2)

/-- One public operation of the buffer pool manager. -/
inductive Op where
  | fetchOp (pid : Int)
  | unpinOp (pid : Int) (is_dirty : Bool)
  | flushOp (pid : Int)
  | newPageOp
  | deletePageOp (pid : Int)
  | flushAllOp
deriving DecidableEq

/-- Execute one operation, keeping the successor state and the disk
trace it issued. -/
def stepTr (s : BufferPoolManager) : Op → BufferPoolManager × List DiskOp
  | Op.fetchOp pid => ((FetchPageImpl s pid).2.1, (FetchPageImpl s pid).2.2)
  | Op.unpinOp pid d => ((UnpinPageImpl s pid d).2.1, (UnpinPageImpl s pid d).2.2)
  | Op.flushOp pid => ((FlushPageImpl s pid).2.1, (FlushPageImpl s pid).2.2)
  | Op.newPageOp => ((NewPageImpl s).2.1, (NewPageImpl s).2.2)
  | Op.deletePageOp pid => ((DeletePageImpl s pid).2.1, (DeletePageImpl s pid).2.2)
  | Op.flushAllOp => FlushAllPagesImpl s

/-- Execute one operation, keeping only the successor state. -/
def stepOp (s : BufferPoolManager) (o : Op) : BufferPoolManager :=
  (stepTr s o).1

/-- Run a sequence of operations. -/
def runOps (s : BufferPoolManager) (ops : List Op) : BufferPoolManager :=
  ops.foldl stepOp s

/-- Run a sequence of operations, accumulating the full disk trace. -/
def runTr (s : BufferPoolManager) : List Op → BufferPoolManager × List DiskOp
  | [] => (s, [])
  | o :: r =>
    let p := stepTr s o
    let q := runTr p.1 r
    (q.1, p.2 ++ q.2)

/-- The page identifiers resident in a state: the page table's keys. -/
def residentIds (s : BufferPoolManager) : List Int :=
  s.page_table_.map Prod.fst

/-- The frame slots tracked by the page table: its value set. -/
def tableFrames (s : BufferPoolManager) : List Nat :=
  s.page_table_.map Prod.snd

/-- The number of persistent-store reads in a disk trace. -/
def readsOf (tr : List DiskOp) : List DiskOp :=
  tr.filter (fun e => match e with | DiskOp.readE _ => true | _ => false)

/-- The write events in a disk trace. -/
def writesOf (tr : List DiskOp) : List DiskOp :=
  tr.filter (fun e => match e with | DiskOp.writeE _ _ => true | _ => false)

/-- The deallocation events in a disk trace. -/
def deallocsOf (tr : List DiskOp) : List DiskOp :=
  tr.filter (fun e => match e with | DiskOp.deallocE _ => true | _ => false)

/-- An operation drawn from the fetch/unpin fragment. -/
def isFU : Op → Bool
  | Op.fetchOp _ => true
  | Op.unpinOp _ _ => true
  | _ => false

/-- A one-frame pool whose single frame holds page 5 with a set dirty
flag and is eviction-eligible (it is in neither the page table nor the
free list). Used to exercise the operations on a dirty frame. -/
def dirtyVictimState : BufferPoolManager :=
  { pages_ := [{ page_id_ := 5, pin_count_ := 0, is_dirty_ := true, data_ := 77 }]
    page_table_ := []
    free_list_ := []
    replacer_ := [0]
    disk_ := { pages_ := [], next_page_id_ := 6 } }

/-- A one-frame pool whose single frame holds page 5, resident and
unpinned, with a set dirty flag. -/
def dirtyResidentState : BufferPoolManager :=
  { pages_ := [{ page_id_ := 5, pin_count_ := 0, is_dirty_ := true, data_ := 77 }]
    page_table_ := [(5, 0)]
    free_list_ := []
    replacer_ := []
    disk_ := { pages_ := [], next_page_id_ := 6 } }

/-- The structural invariant tying the free list, the replacer's
eligible set, and the page table's value set together: duplicate-free
collections, the page table injective on frame slots, and the free list
and eligible set disjoint from the tracked slots and from each other. -/
structure Inv (s : BufferPoolManager) : Prop where
  flND : s.free_list_.Nodup
  rND : s.replacer_.Nodup
  valND : (s.page_table_.map Prod.snd).Nodup
  flV : ∀ f ∈ s.free_list_, f ∉ s.page_table_.map Prod.snd
  rV : ∀ f ∈ s.replacer_, f ∉ s.page_table_.map Prod.snd
  flR : ∀ f ∈ s.free_list_, f ∉ s.replacer_

/-- The pin-count invariant maintained by the fetch/unpin fragment: no
pin count is negative, and every frame on the free list or in the
replacer's eligible set has pin count zero. -/
structure PinInv (s : BufferPoolManager) : Prop where
  nonneg : ∀ p ∈ s.pages_, 0 ≤ p.pin_count_
  rzero : ∀ f ∈ s.replacer_, (getPage s.pages_ f).pin_count_ = 0
  flzero : ∀ f ∈ s.free_list_, (getPage s.pages_ f).pin_count_ = 0

/-- Saturating decrement on a pin count, as performed by `unpin`. -/
def satDec (p : Int) : Int :=
  if 0 < p then p - 1 else p

theorem alFind_some_mem {t : List (Int × Nat)} {k : Int} {v : Nat}
    (h : alFind t k = some v) : (k, v) ∈ t := by
  induction t with
  | nil => exact absurd h (by simp [alFind])
  | cons e r ih =>
    simp only [alFind] at h
    split at h
    · next he =>
      obtain rfl : e.2 = v := Option.some.inj h
      exact List.mem_cons.mpr (Or.inl (by cases e; cases he; rfl))
    · exact List.mem_cons.mpr (Or.inr (ih h))

theorem mem_alErase {t : List (Int × Nat)} {k : Int} {e : Int × Nat}
    (h : e ∈ alErase t k) : e ∈ t ∧ e.1 ≠ k := by
  simpa [alErase, List.mem_filter] using h

theorem vals_alErase_sublist (t : List (Int × Nat)) (k : Int) :
    List.Sublist ((alErase t k).map Prod.snd) (t.map Prod.snd) :=
  List.Sublist.map _ (List.filter_sublist t)

theorem mem_vals_alErase {t : List (Int × Nat)} {k : Int} {v : Nat}
    (h : v ∈ (alErase t k).map Prod.snd) : v ∈ t.map Prod.snd :=
  (vals_alErase_sublist t k).subset h

theorem not_mem_vals_alErase_of_nodup {t : List (Int × Nat)} {k : Int} {v : Nat}
    (hnd : (t.map Prod.snd).Nodup) (hf : alFind t k = some v) :
    v ∉ (alErase t k).map Prod.snd := by
  intro hv
  obtain ⟨e, he, hsnd⟩ := List.mem_map.mp hv
  obtain ⟨het, hek⟩ := mem_alErase he
  have hkv : (k, v) ∈ t := alFind_some_mem hf
  have heq : e = (k, v) :=
    List.inj_on_of_nodup_map hnd het hkv (by simp [hsnd])
  rw [heq] at hek
  exact hek rfl

theorem alFind_eq_none {t : List (Int × Nat)} {k : Int} (h : ∀ e ∈ t, e.1 ≠ k) :
    alFind t k = none := by
  induction t with
  | nil => rfl
  | cons e r ih =>
    simp only [alFind]
    rw [if_neg (h e (List.mem_cons_self e r))]
    exact ih fun x hx => h x (List.mem_cons_of_mem e hx)

theorem alFind_alErase_self (t : List (Int × Nat)) (k : Int) :
    alFind (alErase t k) k = none :=
  alFind_eq_none fun e he => (mem_alErase he).2

theorem alFind_alErase_ne (t : List (Int × Nat)) {k k1 : Int} (h : k ≠ k1) :
    alFind (alErase t k1) k = alFind t k := by
  induction t with
  | nil => rfl
  | cons e r ih =>
    by_cases he : e.1 = k1
    · have hek : e.1 ≠ k := by rw [he]; exact fun hh => h hh.symm
      simp only [alErase, List.filter_cons] at *
      rw [if_neg (by simp [he])]
      simp only [alFind]
      rw [if_neg hek]
      exact ih
    · simp only [alErase, List.filter_cons] at *
      rw [if_pos (by simp [he])]
      simp only [alFind]
      by_cases hk : e.1 = k
      · rw [if_pos hk, if_pos hk]
      · rw [if_neg hk, if_neg hk]
        exact ih

theorem alFind_alInsert_self (t : List (Int × Nat)) (k : Int) (v : Nat) :
    alFind (alInsert t k v) k = some v := by
  simp [alInsert, alFind]

theorem alFind_alInsert_ne (t : List (Int × Nat)) {k k1 : Int} (v : Nat) (h : k1 ≠ k) :
    alFind (alInsert t k v) k1 = alFind t k1 := by
  simp only [alInsert, alFind]
  rw [if_neg (fun hh => h hh.symm)]
  exact alFind_alErase_ne t (fun hh => h hh)

theorem mem_vals_alInsert {t : List (Int × Nat)} {k : Int} {v x : Nat}
    (h : x ∈ (alInsert t k v).map Prod.snd) : x = v ∨ x ∈ t.map Prod.snd := by
  simp only [alInsert, List.map_cons, List.mem_cons] at h
  rcases h with h | h
  · exact Or.inl h
  · exact Or.inr (mem_vals_alErase h)

theorem vals_alInsert_nodup {t : List (Int × Nat)} {k : Int} {v : Nat}
    (hnd : (t.map Prod.snd).Nodup) (hv : v ∉ t.map Prod.snd) :
    ((alInsert t k v).map Prod.snd).Nodup := by
  simp only [alInsert, List.map_cons, List.nodup_cons]
  exact ⟨fun h => hv (mem_vals_alErase h), List.Nodup.sublist (vals_alErase_sublist t k) hnd⟩

theorem mem_replacerPin {r : List Nat} {f x : Nat} (h : x ∈ replacerPin r f) :
    x ∈ r ∧ x ≠ f := by
  simpa [replacerPin, List.mem_filter] using h

theorem replacerPin_nodup {r : List Nat} (f : Nat) (h : r.Nodup) :
    (replacerPin r f).Nodup :=
  List.Nodup.filter _ h

theorem mem_replacerUnpin {r : List Nat} {f x : Nat} (h : x ∈ replacerUnpin r f) :
    x ∈ r ∨ x = f := by
  unfold replacerUnpin at h
  split at h
  · exact Or.inl h
  · rcases List.mem_append.mp h with h1 | h1
    · exact Or.inl h1
    · exact Or.inr (by simpa using h1)

theorem replacerUnpin_nodup {r : List Nat} {f : Nat} (h : r.Nodup) :
    (replacerUnpin r f).Nodup := by
  unfold replacerUnpin
  split
  · exact h
  · next hf =>
    refine List.Nodup.append h (List.nodup_singleton f) ?_
    intro a ha hb
    rw [List.mem_singleton] at hb
    exact hf (hb ▸ ha)

theorem getPage_setPage_ne {i j : Nat} (ps : List Page) (p : Page) (h : i ≠ j) :
    getPage (setPage ps i p) j = getPage ps j := by
  induction ps generalizing i j with
  | nil => rfl
  | cons q r ih =>
    cases i with
    | zero =>
      cases j with
      | zero => exact absurd rfl h
      | succ j => rfl
    | succ i =>
      cases j with
      | zero => rfl
      | succ j => exact ih (fun hh => h (by rw [hh]))

theorem pin_getPage_setPage_self (ps : List Page) (i : Nat) {p : Page}
    (hp : p.pin_count_ = 0) : (getPage (setPage ps i p) i).pin_count_ = 0 := by
  induction ps generalizing i with
  | nil => rfl
  | cons q r ih =>
    cases i with
    | zero => exact hp
    | succ i => exact ih i

theorem mem_setPage {ps : List Page} {i : Nat} {a q : Page} (h : q ∈ setPage ps i a) :
    q ∈ ps ∨ q = a := by
  induction ps generalizing i with
  | nil => exact absurd h (by simp [setPage])
  | cons b r ih =>
    cases i with
    | zero =>
      rcases List.mem_cons.mp h with h1 | h1
      · exact Or.inr h1
      · exact Or.inl (List.mem_cons_of_mem b h1)
    | succ i =>
      rcases List.mem_cons.mp h with h1 | h1
      · exact Or.inl (h1 ▸ List.mem_cons_self b r)
      · rcases ih h1 with h2 | h2
        · exact Or.inl (List.mem_cons_of_mem b h2)
        · exact Or.inr h2

theorem getPage_mem_or_default (ps : List Page) (i : Nat) :
    getPage ps i ∈ ps ∨ getPage ps i = defaultPage := by
  induction ps generalizing i with
  | nil => exact Or.inr rfl
  | cons q r ih =>
    cases i with
    | zero => exact Or.inl (List.mem_cons_self q r)
    | succ i =>
      rcases ih i with h | h
      · exact Or.inl (List.mem_cons_of_mem q h)
      · exact Or.inr h

theorem getVictim_none {s s1 : BufferPoolManager}
    (h : GetVictimPage s = (none, s1)) : s1 = s := by
  unfold GetVictimPage at h
  split at h
  · split at h
    · exact (Prod.mk.injEq _ _ _ _ ▸ h).2.symm ▸ rfl
    · exact absurd (Prod.mk.injEq _ _ _ _ ▸ h).1 (by simp)
  · exact absurd (Prod.mk.injEq _ _ _ _ ▸ h).1 (by simp)

/-- Victim selection keeps the frame array, page table, and disk fixed,
produces a state still satisfying the structural invariant, and hands
back a slot lying outside the page table's values, the free list, and
the replacer of the successor state. -/
theorem getVictim_some {s s1 : BufferPoolManager} {fid : Nat}
    (hInv : Inv s) (h : GetVictimPage s = (some fid, s1)) :
    Inv s1 ∧ fid ∉ s1.page_table_.map Prod.snd ∧ fid ∉ s1.free_list_ ∧
      fid ∉ s1.replacer_ ∧ s1.pages_ = s.pages_ ∧
      s1.page_table_ = s.page_table_ ∧ s1.disk_ = s.disk_ ∧
      s1.free_list_ ⊆ s.free_list_ ∧ s1.replacer_ ⊆ s.replacer_ := by
  unfold GetVictimPage at h
  split at h
  · next hfl =>
    split at h
    · exact absurd (Prod.mk.injEq _ _ _ _ ▸ h).1 (by simp)
    · next f rest hr =>
      obtain ⟨hf, hs⟩ := Prod.mk.injEq _ _ _ _ ▸ h
      obtain rfl : f = fid := Option.some.inj hf
      subst hs
      have hrd := hInv.rND
      rw [hr] at hrd
      refine ⟨⟨hInv.flND, (List.nodup_cons.mp hrd).2, hInv.valND, hInv.flV,
        fun g hg => hInv.rV g (by rw [hr]; exact List.mem_cons_of_mem f hg),
        fun g hg => fun hc => hInv.flR g hg (by rw [hr]; exact List.mem_cons_of_mem f hc)⟩,
        hInv.rV f (by rw [hr]; exact List.mem_cons_self f rest), ?_,
        (List.nodup_cons.mp hrd).1, rfl, rfl, rfl,
        fun a ha => ha, ?_⟩
      · rw [hfl]
        exact List.not_mem_nil f
      · intro a ha
        rw [hr]
        exact List.mem_cons_of_mem f ha
  · next f rest hfl =>
    obtain ⟨hf, hs⟩ := Prod.mk.injEq _ _ _ _ ▸ h
    obtain rfl : f = fid := Option.some.inj hf
    subst hs
    have hfd := hInv.flND
    rw [hfl] at hfd
    refine ⟨⟨(List.nodup_cons.mp hfd).2, hInv.rND, hInv.valND,
      fun g hg => hInv.flV g (by rw [hfl]; exact List.mem_cons_of_mem f hg),
      hInv.rV,
      fun g hg => hInv.flR g (by rw [hfl]; exact List.mem_cons_of_mem f hg)⟩,
      hInv.flV f (by rw [hfl]; exact List.mem_cons_self f rest),
      (List.nodup_cons.mp hfd).1,
      hInv.flR f (by rw [hfl]; exact List.mem_cons_self f rest), rfl, rfl, rfl,
      ?_, fun a ha => ha⟩
    intro a ha
    rw [hfl]
    exact List.mem_cons_of_mem f ha

theorem inv_fetch (s : BufferPoolManager) (pid : Int) (hInv : Inv s) :
    Inv (FetchPageImpl s pid).2.1 := by
  unfold FetchPageImpl
  rcases hf : alFind s.page_table_ pid with _ | fid
  · rcases hv : GetVictimPage s with ⟨ov, s1⟩
    rcases ov with _ | fid
    · have hs1 : s1 = s := getVictim_none hv
      simp only [hf, hv]
      exact hs1 ▸ hInv
    · obtain ⟨hInv1, hfv, hffl, hfr, hp, hpt, hd, hflsub, hrsub⟩ := getVictim_some hInv hv
      simp only [hf, hv]
      refine ⟨hInv1.flND, hInv1.rND,
        vals_alInsert_nodup (List.Nodup.sublist (vals_alErase_sublist _ _) hInv1.valND)
          (fun hc => hfv (mem_vals_alErase hc)), ?_, ?_, hInv1.flR⟩
      · intro g hg hc
        rcases mem_vals_alInsert hc with h1 | h1
        · exact hffl (h1 ▸ hg)
        · exact hInv1.flV g hg (mem_vals_alErase h1)
      · intro g hg hc
        rcases mem_vals_alInsert hc with h1 | h1
        · exact hfr (h1 ▸ hg)
        · exact hInv1.rV g hg (mem_vals_alErase h1)
  · simp only [hf]
    exact ⟨hInv.flND, replacerPin_nodup _ hInv.rND, hInv.valND, hInv.flV,
      fun g hg => hInv.rV g (mem_replacerPin hg).1,
      fun g hg hc => hInv.flR g hg (mem_replacerPin hc).1⟩

/-- Changing only the frame array preserves the structural invariant. -/
theorem inv_pages_only (s : BufferPoolManager) (ps : List Page) (hInv : Inv s) :
    Inv { s with pages_ := ps } :=
  ⟨hInv.flND, hInv.rND, hInv.valND, hInv.flV, hInv.rV, hInv.flR⟩

/-- The state shape shared by `unpin`-to-zero and `flush`: erase the
identifier's entry and hand its frame to the replacer. -/
theorem inv_release_state (s : BufferPoolManager) {pid : Int} {fid : Nat}
    (ps : List Page) (dsk : DiskManager) (hInv : Inv s)
    (hf : alFind s.page_table_ pid = some fid) :
    Inv { s with pages_ := ps, disk_ := dsk,
                 replacer_ := replacerUnpin s.replacer_ fid,
                 page_table_ := alErase s.page_table_ pid } := by
  have hfid : fid ∈ s.page_table_.map Prod.snd :=
    List.mem_map.mpr ⟨(pid, fid), alFind_some_mem hf, rfl⟩
  refine ⟨hInv.flND, replacerUnpin_nodup hInv.rND,
    List.Nodup.sublist (vals_alErase_sublist _ _) hInv.valND,
    fun g hg hc => hInv.flV g hg (mem_vals_alErase hc), ?_, ?_⟩
  · intro g hg hc
    rcases mem_replacerUnpin hg with h1 | h1
    · exact hInv.rV g h1 (mem_vals_alErase hc)
    · exact not_mem_vals_alErase_of_nodup hInv.valND hf (h1 ▸ hc)
  · intro g hg hc
    rcases mem_replacerUnpin hc with h1 | h1
    · exact hInv.flR g hg h1
    · exact hInv.flV g hg (h1 ▸ hfid)

theorem inv_unpin (s : BufferPoolManager) (pid : Int) (d : Bool) (hInv : Inv s) :
    Inv (UnpinPageImpl s pid d).2.1 := by
  unfold UnpinPageImpl
  rcases hf : alFind s.page_table_ pid with _ | fid
  · simp only [hf]
    exact hInv
  · simp only [hf]
    split <;> split
    · exact inv_release_state s _ _ hInv hf
    · exact inv_pages_only s _ hInv
    · exact inv_release_state s _ _ hInv hf
    · exact inv_pages_only s _ hInv

theorem inv_flush (s : BufferPoolManager) (pid : Int) (hInv : Inv s) :
    Inv (FlushPageImpl s pid).2.1 := by
  unfold FlushPageImpl
  rcases hf : alFind s.page_table_ pid with _ | fid
  · simp only [hf]
    exact hInv
  · have hfid : fid ∈ s.page_table_.map Prod.snd :=
      List.mem_map.mpr ⟨(pid, fid), alFind_some_mem hf, rfl⟩
    simp only [hf]
    refine ⟨hInv.flND, replacerUnpin_nodup hInv.rND,
      List.Nodup.sublist (vals_alErase_sublist _ _) hInv.valND,
      fun g hg hc => hInv.flV g hg (mem_vals_alErase hc), ?_, ?_⟩
    · intro g hg hc
      rcases mem_replacerUnpin hg with h1 | h1
      · exact hInv.rV g h1 (mem_vals_alErase hc)
      · exact not_mem_vals_alErase_of_nodup hInv.valND hf (h1 ▸ hc)
    · intro g hg hc
      rcases mem_replacerUnpin hc with h1 | h1
      · exact hInv.flR g hg h1
      · exact hInv.flV g hg (h1 ▸ hfid)

theorem inv_new (s : BufferPoolManager) (hInv : Inv s) :
    Inv (NewPageImpl s).2.1 := by
  unfold NewPageImpl
  rcases hv : GetVictimPage s with ⟨ov, s1⟩
  rcases ov with _ | fid
  · have hs1 : s1 = s := getVictim_none hv
    simp only [hv]
    exact hs1 ▸ hInv
  · obtain ⟨hInv1, hfv, hffl, hfr, hp, hpt, hd, hflsub, hrsub⟩ := getVictim_some hInv hv
    simp only [hv, AllocatePage]
    refine ⟨hInv1.flND, hInv1.rND, vals_alInsert_nodup hInv1.valND hfv, ?_, ?_, hInv1.flR⟩
    · intro g hg hc
      rcases mem_vals_alInsert hc with h1 | h1
      · exact hffl (h1 ▸ hg)
      · exact hInv1.flV g hg h1
    · intro g hg hc
      rcases mem_vals_alInsert hc with h1 | h1
      · exact hfr (h1 ▸ hg)
      · exact hInv1.rV g hg h1

theorem inv_delete (s : BufferPoolManager) (pid : Int) (hInv : Inv s) :
    Inv (DeletePageImpl s pid).2.1 := by
  unfold DeletePageImpl
  rcases hf : alFind s.page_table_ pid with _ | fid
  · simp only [hf]
    exact hInv
  · have hfid : fid ∈ s.page_table_.map Prod.snd :=
      List.mem_map.mpr ⟨(pid, fid), alFind_some_mem hf, rfl⟩
    have hfid_nfl : fid ∉ s.free_list_ := fun hc => hInv.flV fid hc hfid
    have hfid_nr : fid ∉ s.replacer_ := fun hc => hInv.rV fid hc hfid
    have hfid_ner : fid ∉ (alErase s.page_table_ pid).map Prod.snd :=
      not_mem_vals_alErase_of_nodup hInv.valND hf
    simp only [hf]
    split
    · exact hInv
    · refine ⟨?_, hInv.rND, List.Nodup.sublist (vals_alErase_sublist _ _) hInv.valND,
        ?_, fun g hg hc => hInv.rV g hg (mem_vals_alErase hc), ?_⟩
      · refine List.Nodup.append hInv.flND (List.nodup_singleton fid) ?_
        intro a ha hb
        rw [List.mem_singleton] at hb
        exact hfid_nfl (hb ▸ ha)
      · intro g hg hc
        rcases List.mem_append.mp hg with h1 | h1
        · exact hInv.flV g h1 (mem_vals_alErase hc)
        · rw [List.mem_singleton] at h1
          exact hfid_ner (h1 ▸ hc)
      · intro g hg hc
        rcases List.mem_append.mp hg with h1 | h1
        · exact hInv.flR g h1 hc
        · rw [List.mem_singleton] at h1
          exact hfid_nr (h1 ▸ hc)

theorem flushAllGo_free (l : List (Int × Nat)) (s : BufferPoolManager) (tr : List DiskOp) :
    (flushAllGo s l tr).1.free_list_ = s.free_list_ := by
  induction l generalizing s tr with
  | nil => rfl
  | cons e r ih =>
    simp only [flushAllGo]
    exact ih _ _

theorem flushAllGo_repl_mem (l : List (Int × Nat)) (s : BufferPoolManager)
    (tr : List DiskOp) {x : Nat} (h : x ∈ (flushAllGo s l tr).1.replacer_) :
    x ∈ s.replacer_ ∨ x ∈ l.map Prod.snd := by
  induction l generalizing s tr with
  | nil => exact Or.inl h
  | cons e r ih =>
    simp only [flushAllGo] at h
    rcases ih _ _ h with h1 | h1
    · rcases mem_replacerUnpin h1 with h2 | h2
      · exact Or.inl h2
      · exact Or.inr (by simp [h2])
    · exact Or.inr (by simp [h1])

theorem flushAllGo_repl_nodup (l : List (Int × Nat)) (s : BufferPoolManager)
    (tr : List DiskOp) (h : s.replacer_.Nodup) :
    (flushAllGo s l tr).1.replacer_.Nodup := by
  induction l generalizing s tr with
  | nil => exact h
  | cons e r ih =>
    simp only [flushAllGo]
    exact ih _ _ (replacerUnpin_nodup h)

theorem inv_flushAll (s : BufferPoolManager) (hInv : Inv s) :
    Inv (FlushAllPagesImpl s).1 := by
  simp only [FlushAllPagesImpl]
  refine ⟨?_, ?_, by simp, by simp, by simp, ?_⟩
  · show ((flushAllGo s s.page_table_ []).1.free_list_).Nodup
    rw [flushAllGo_free]
    exact hInv.flND
  · exact flushAllGo_repl_nodup _ _ _ hInv.rND
  · intro g hg hc
    have hg1 : g ∈ s.free_list_ := by
      rw [flushAllGo_free] at hg
      exact hg
    rcases flushAllGo_repl_mem _ _ _ hc with h1 | h1
    · exact hInv.flR g hg1 h1
    · exact hInv.flV g hg1 h1

theorem inv_step (s : BufferPoolManager) (o : Op) (hInv : Inv s) :
    Inv (stepOp s o) := by
  cases o with
  | fetchOp pid => exact inv_fetch s pid hInv
  | unpinOp pid d => exact inv_unpin s pid d hInv
  | flushOp pid => exact inv_flush s pid hInv
  | newPageOp => exact inv_new s hInv
  | deletePageOp pid => exact inv_delete s pid hInv
  | flushAllOp => exact inv_flushAll s hInv

theorem inv_run (s : BufferPoolManager) (ops : List Op) (hInv : Inv s) :
    Inv (runOps s ops) := by
  induction ops generalizing s with
  | nil => exact hInv
  | cons o r ih => exact ih _ (inv_step s o hInv)

theorem inv_init (n : Nat) : Inv (initBPM n) := by
  refine ⟨List.nodup_range n, List.nodup_nil, by simp [initBPM], ?_, ?_, ?_⟩
  · intro g hg hc
    simp [initBPM] at hc
  · intro g hg hc
    simp [initBPM] at hg
  · intro g hg hc
    simp [initBPM] at hc

theorem pin_nonneg_getPage {s : BufferPoolManager} (hP : PinInv s) (i : Nat) :
    0 ≤ (getPage s.pages_ i).pin_count_ := by
  rcases getPage_mem_or_default s.pages_ i with h | h
  · exact hP.nonneg _ h
  · rw [h]
    norm_num [defaultPage]

/-- The selected victim slot comes from the free list or the replacer's
eligible set. -/
theorem getVictim_mem {s s1 : BufferPoolManager} {fid : Nat}
    (h : GetVictimPage s = (some fid, s1)) :
    fid ∈ s.free_list_ ∨ fid ∈ s.replacer_ := by
  unfold GetVictimPage at h
  split at h
  · next hfl =>
    split at h
    · exact absurd (Prod.mk.injEq _ _ _ _ ▸ h).1 (by simp)
    · next f rest hr =>
      obtain rfl : f = fid := Option.some.inj (Prod.mk.injEq _ _ _ _ ▸ h).1
      exact Or.inr (by rw [hr]; exact List.mem_cons_self f rest)
  · next f rest hfl =>
    obtain rfl : f = fid := Option.some.inj (Prod.mk.injEq _ _ _ _ ▸ h).1
    exact Or.inl (by rw [hfl]; exact List.mem_cons_self f rest)

/-- The `unpin`-to-zero successor state keeps the pin-count invariant:
the released frame is stored with pin count zero. -/
theorem pin_unpin_zero_state {s : BufferPoolManager} {pid : Int} {fid : Nat}
    {pg1 : Page} (dsk : DiskManager) (hInv : Inv s) (hP : PinInv s)
    (hf : alFind s.page_table_ pid = some fid) (hpin : pg1.pin_count_ = 0) :
    PinInv { s with pages_ := setPage s.pages_ fid pg1, disk_ := dsk,
                    replacer_ := replacerUnpin s.replacer_ fid,
                    page_table_ := alErase s.page_table_ pid } := by
  have hfid : fid ∈ s.page_table_.map Prod.snd :=
    List.mem_map.mpr ⟨(pid, fid), alFind_some_mem hf, rfl⟩
  have hnfl : fid ∉ s.free_list_ := fun hc => hInv.flV fid hc hfid
  have hnr : fid ∉ s.replacer_ := fun hc => hInv.rV fid hc hfid
  refine ⟨?_, ?_, ?_⟩
  · intro p hp
    rcases mem_setPage hp with h1 | h1
    · exact hP.nonneg p h1
    · rw [h1, hpin]
  · intro g hg
    rcases mem_replacerUnpin hg with h1 | h1
    · have hne : fid ≠ g := fun hh => hnr (hh ▸ h1)
      rw [getPage_setPage_ne _ _ hne]
      exact hP.rzero g h1
    · rw [h1]
      exact pin_getPage_setPage_self _ _ hpin
  · intro g hg
    have hne : fid ≠ g := fun hh => hnfl (hh ▸ hg)
    rw [getPage_setPage_ne _ _ hne]
    exact hP.flzero g hg

/-- A still-pinned `unpin` only rewrites the touched frame; the
pin-count invariant survives when the stored pin count is non-negative. -/
theorem pin_unpin_pos_state {s : BufferPoolManager} {pid : Int} {fid : Nat}
    {pg1 : Page} (hInv : Inv s) (hP : PinInv s)
    (hf : alFind s.page_table_ pid = some fid) (hnn : 0 ≤ pg1.pin_count_) :
    PinInv { s with pages_ := setPage s.pages_ fid pg1 } := by
  have hfid : fid ∈ s.page_table_.map Prod.snd :=
    List.mem_map.mpr ⟨(pid, fid), alFind_some_mem hf, rfl⟩
  have hnfl : fid ∉ s.free_list_ := fun hc => hInv.flV fid hc hfid
  have hnr : fid ∉ s.replacer_ := fun hc => hInv.rV fid hc hfid
  refine ⟨?_, ?_, ?_⟩
  · intro p hp
    rcases mem_setPage hp with h1 | h1
    · exact hP.nonneg p h1
    · exact h1 ▸ hnn
  · intro g hg
    have hne : fid ≠ g := fun hh => hnr (hh ▸ hg)
    rw [getPage_setPage_ne _ _ hne]
    exact hP.rzero g hg
  · intro g hg
    have hne : fid ≠ g := fun hh => hnfl (hh ▸ hg)
    rw [getPage_setPage_ne _ _ hne]
    exact hP.flzero g hg

theorem pin_unpin (s : BufferPoolManager) (pid : Int) (d : Bool)
    (hInv : Inv s) (hP : PinInv s) : PinInv (UnpinPageImpl s pid d).2.1 := by
  unfold UnpinPageImpl
  rcases hf : alFind s.page_table_ pid with _ | fid
  · simp only [hf]
    exact hP
  · simp only [hf]
    split
    · next h1 =>
      split
      · next h2 => exact pin_unpin_zero_state _ hInv hP hf h2
      · next h2 =>
        refine pin_unpin_pos_state hInv hP hf ?_
        show (0 : Int) ≤ (getPage s.pages_ fid).pin_count_ - 1
        omega
    · next h1 =>
      split
      · next h2 => exact pin_unpin_zero_state _ hInv hP hf h2
      · next h2 => exact pin_unpin_pos_state hInv hP hf (pin_nonneg_getPage hP fid)

theorem pin_fetch (s : BufferPoolManager) (pid : Int)
    (hInv : Inv s) (hP : PinInv s) : PinInv (FetchPageImpl s pid).2.1 := by
  unfold FetchPageImpl
  rcases hf : alFind s.page_table_ pid with _ | fid
  · rcases hv : GetVictimPage s with ⟨ov, s1⟩
    rcases ov with _ | fid
    · have hs1 : s1 = s := getVictim_none hv
      simp only [hf, hv]
      exact hs1 ▸ hP
    · obtain ⟨hInv1, hfv, hffl, hfr, hp, hpt, hd, hflsub, hrsub⟩ := getVictim_some hInv hv
      simp only [hf, hv]
      refine ⟨?_, ?_, ?_⟩
      · intro p hpm
        rcases mem_setPage hpm with h1 | h1
        · rw [hp] at h1
          exact hP.nonneg p h1
        · rw [h1]
          norm_num
      · intro g hg
        have hne : fid ≠ g := fun hh => hfr (hh ▸ hg)
        rw [getPage_setPage_ne _ _ hne, hp]
        exact hP.rzero g (hrsub hg)
      · intro g hg
        have hne : fid ≠ g := fun hh => hffl (hh ▸ hg)
        rw [getPage_setPage_ne _ _ hne, hp]
        exact hP.flzero g (hflsub hg)
  · have hfid : fid ∈ s.page_table_.map Prod.snd :=
      List.mem_map.mpr ⟨(pid, fid), alFind_some_mem hf, rfl⟩
    have hnfl : fid ∉ s.free_list_ := fun hc => hInv.flV fid hc hfid
    simp only [hf]
    refine ⟨?_, ?_, ?_⟩
    · intro p hpm
      rcases mem_setPage hpm with h1 | h1
      · exact hP.nonneg p h1
      · rw [h1]
        have := pin_nonneg_getPage hP fid
        simp only []
        omega
    · intro g hg
      obtain ⟨hg1, hg2⟩ := mem_replacerPin hg
      rw [getPage_setPage_ne _ _ (fun hh => hg2 hh.symm)]
      exact hP.rzero g hg1
    · intro g hg
      have hne : fid ≠ g := fun hh => hnfl (hh ▸ hg)
      rw [getPage_setPage_ne _ _ hne]
      exact hP.flzero g hg

theorem getPage_replicate (n i : Nat) :
    getPage (List.replicate n defaultPage) i = defaultPage := by
  induction n generalizing i with
  | zero => rfl
  | succ n ih =>
    rw [List.replicate_succ]
    cases i with
    | zero => rfl
    | succ i => exact ih i

theorem pin_init (n : Nat) : PinInv (initBPM n) := by
  refine ⟨?_, ?_, ?_⟩
  · intro p hp
    have := List.eq_of_mem_replicate hp
    rw [this, defaultPage]
  · intro g hg
    exact absurd hg (List.not_mem_nil g)
  · intro g hg
    show (getPage (List.replicate n defaultPage) g).pin_count_ = 0
    rw [getPage_replicate]
    rfl

theorem pin_runFU (s : BufferPoolManager) (ops : List Op)
    (hfu : ops.all isFU = true) (hInv : Inv s) (hP : PinInv s) :
    PinInv (runOps s ops) := by
  induction ops generalizing s with
  | nil => exact hP
  | cons o r ih =>
    rw [List.all_cons, Bool.and_eq_true] at hfu
    have hstep : PinInv (stepOp s o) := by
      cases o with
      | fetchOp pid => exact pin_fetch s pid hInv hP
      | unpinOp pid d => exact pin_unpin s pid d hInv hP
      | flushOp pid => exact absurd hfu.1 (by simp [isFU])
      | newPageOp => exact absurd hfu.1 (by simp [isFU])
      | deletePageOp pid => exact absurd hfu.1 (by simp [isFU])
      | flushAllOp => exact absurd hfu.1 (by simp [isFU])
    exact ih _ hfu.2 (inv_step s o hInv) hstep

theorem getPage_setPage_self {ps : List Page} {i : Nat} (p : Page)
    (h : i < ps.length) : getPage (setPage ps i p) i = p := by
  induction ps generalizing i with
  | nil => exact absurd h (by simp)
  | cons q r ih =>
    cases i with
    | zero => rfl
    | succ i => exact ih (Nat.lt_of_succ_lt_succ h)

/-- Victim selection never touches the frame array, the page table, or
the disk (stated without any invariant assumption). -/
theorem getVictim_some_frames {s s1 : BufferPoolManager} {fid : Nat}
    (h : GetVictimPage s = (some fid, s1)) :
    s1.pages_ = s.pages_ ∧ s1.page_table_ = s.page_table_ ∧ s1.disk_ = s.disk_ := by
  unfold GetVictimPage at h
  split at h
  · split at h
    · exact absurd (Prod.mk.injEq _ _ _ _ ▸ h).1 (by simp)
    · obtain ⟨hf, hs⟩ := Prod.mk.injEq _ _ _ _ ▸ h
      subst hs
      exact ⟨rfl, rfl, rfl⟩
  · obtain ⟨hf, hs⟩ := Prod.mk.injEq _ _ _ _ ▸ h
    subst hs
    exact ⟨rfl, rfl, rfl⟩

/-- C1: `unpin(id, true)` does not mark the frame dirty, and the dirty
signal is lost when the pin count stays positive. On a one-frame pool,
fetch page 0 twice (pin count 2), call `unpin(0, true)` — the frame's
dirty flag is still false afterwards — then `unpin(0, false)` and fetch
page 1: the whole run issues only the two reads, so page 0 is never
written back before its frame is reused for page 1, contradicting the
claimed monotonic dirty marking and guaranteed write-back. -/
theorem C1_dirty_signal_dropped :
    (getPage (runTr (initBPM 1)
        [Op.fetchOp 0, Op.fetchOp 0, Op.unpinOp 0 true]).1.pages_ 0).is_dirty_ = false ∧
    (runTr (initBPM 1) [Op.fetchOp 0, Op.fetchOp 0, Op.unpinOp 0 true,
        Op.unpinOp 0 false, Op.fetchOp 1]).2 = [DiskOp.readE 0, DiskOp.readE 1] ∧
    (getPage (runTr (initBPM 1) [Op.fetchOp 0, Op.fetchOp 0, Op.unpinOp 0 true,
        Op.unpinOp 0 false, Op.fetchOp 1]).1.pages_ 0).page_id_ = 1 := by
  decide

/-- C2: on a fresh one-frame pool, `new_page` succeeds with the fresh
identifier 0 resident in a zeroed frame — but the frame's pin count is
0, not 1 as the claim states. -/
theorem C2_new_page_pin_count_zero :
    (NewPageImpl (initBPM 1)).1 = some (0, 0) ∧
    (NewPageImpl (initBPM 1)).2.2 = [DiskOp.allocE 0] ∧
    alFind (NewPageImpl (initBPM 1)).2.1.page_table_ 0 = some 0 ∧
    getPage (NewPageImpl (initBPM 1)).2.1.pages_ 0 =
      { page_id_ := 0, pin_count_ := 0, is_dirty_ := false, data_ := 0 } := by
  decide

/-- C3 (counterexample): after fetching page 0 and unpinning it on a
one-frame pool, slot 0 is in neither the Free List nor the Page Table's
value set — the claimed two-way partition of slots fails. -/
theorem C3_partition_fails :
    ¬ (0 ∈ (runOps (initBPM 1) [Op.fetchOp 0, Op.unpinOp 0 false]).free_list_ ∨
       0 ∈ tableFrames (runOps (initBPM 1) [Op.fetchOp 0, Op.unpinOp 0 false])) := by
  decide

/-- C3 (amended): in every state reachable from a freshly constructed
pool by any sequence of public operations, the Free List is disjoint
from the Page Table's value set; a slot may however sit in neither
collection (it is then tracked only by the eviction chooser, or orphaned
by `flush_all`). -/
theorem C3_free_list_disjoint_from_table (n : Nat) (ops : List Op) :
    List.Disjoint (runOps (initBPM n) ops).free_list_
      (tableFrames (runOps (initBPM n) ops)) := by
  intro a ha hb
  exact (inv_run (initBPM n) ops (inv_init n)).flV a ha hb

/-- C4: along every sequence of fetch and unpin operations from a fresh
pool, no frame's pin count is ever negative, and any victim slot handed
out by the shared victim-acquisition helper (used by both fetch and
new_page) has pin count zero. -/
theorem C4_no_pinned_victim (n : Nat) (ops : List Op)
    (hfu : ops.all isFU = true) :
    (∀ p ∈ (runOps (initBPM n) ops).pages_, 0 ≤ p.pin_count_) ∧
    (∀ fid : Nat, (GetVictimPage (runOps (initBPM n) ops)).1 = some fid →
      (getPage (runOps (initBPM n) ops).pages_ fid).pin_count_ = 0) := by
  have hP := pin_runFU (initBPM n) ops hfu (inv_init n) (pin_init n)
  refine ⟨hP.nonneg, ?_⟩
  intro fid hv
  have hpair : GetVictimPage (runOps (initBPM n) ops) =
      (some fid, (GetVictimPage (runOps (initBPM n) ops)).2) := by
    rw [← hv]
  rcases getVictim_mem hpair with h | h
  · exact hP.flzero fid h
  · exact hP.rzero fid h

/-- C4 (witness): after fetch 0 then unpin 0 on a one-frame pool, the
victim the helper would select is slot 0, and its pin count is zero. -/
theorem C4_no_pinned_victim_witness :
    (getPage (runOps (initBPM 1)
      [Op.fetchOp 0, Op.unpinOp 0 false]).pages_ 0).pin_count_ = 0 :=
  (C4_no_pinned_victim 1 [Op.fetchOp 0, Op.unpinOp 0 false] (by decide)).2 0 (by decide)

/-- C5 (counterexample): fetching page 9 into a dirty victim frame does
not set the frame's dirty flag to false — the flag is still true after
the install, contrary to the claim. -/
theorem C5_dirty_flag_survives_fetch :
    (FetchPageImpl dirtyVictimState 9).1 = some 0 ∧
    (getPage (FetchPageImpl dirtyVictimState 9).2.1.pages_ 0).is_dirty_ = true := by
  decide

/-- C5 (amended): on a miss with an available victim, fetch installs the
requested identifier into the page table with the victim slot, removes
the victim's old identifier (a no-op when absent), and rewrites the
frame with the new identifier, pin count 1, and the read-in contents —
but it leaves the frame's dirty flag unchanged rather than clearing it. -/
theorem C5_fetch_miss_install (s s1 : BufferPoolManager) (pid : Int) (fid : Nat)
    (hmiss : alFind s.page_table_ pid = none)
    (hvic : GetVictimPage s = (some fid, s1))
    (hlen : fid < s.pages_.length) :
    (FetchPageImpl s pid).1 = some fid ∧
    alFind (FetchPageImpl s pid).2.1.page_table_ pid = some fid ∧
    ((getPage s.pages_ fid).page_id_ ≠ pid →
      alFind (FetchPageImpl s pid).2.1.page_table_ (getPage s.pages_ fid).page_id_ = none) ∧
    getPage (FetchPageImpl s pid).2.1.pages_ fid =
      { page_id_ := pid, pin_count_ := 1,
        is_dirty_ := (getPage s.pages_ fid).is_dirty_,
        data_ := ReadPage (FetchPageImpl s pid).2.1.disk_ pid } := by
  obtain ⟨hp, hpt, hd⟩ := getVictim_some_frames hvic
  refine ⟨?_, ?_, ?_, ?_⟩
  · unfold FetchPageImpl
    simp only [hmiss, hvic]
  · unfold FetchPageImpl
    simp only [hmiss, hvic]
    exact alFind_alInsert_self _ _ _
  · intro hne
    unfold FetchPageImpl
    simp only [hmiss, hvic, hp]
    rw [alFind_alInsert_ne _ _ hne, alFind_alErase_self]
  · unfold FetchPageImpl
    simp only [hmiss, hvic, hp, hd]
    rw [getPage_setPage_self _ hlen]

/-- C5 (witness): the amended install postconditions hold concretely for
fetching page 9 into the dirty one-frame pool. -/
theorem C5_fetch_miss_install_witness :
    (FetchPageImpl dirtyVictimState 9).1 = some 0 ∧
    alFind (FetchPageImpl dirtyVictimState 9).2.1.page_table_ 9 = some 0 ∧
    ((getPage dirtyVictimState.pages_ 0).page_id_ ≠ 9 →
      alFind (FetchPageImpl dirtyVictimState 9).2.1.page_table_
        (getPage dirtyVictimState.pages_ 0).page_id_ = none) ∧
    getPage (FetchPageImpl dirtyVictimState 9).2.1.pages_ 0 =
      { page_id_ := 9, pin_count_ := 1,
        is_dirty_ := (getPage dirtyVictimState.pages_ 0).is_dirty_,
        data_ := ReadPage (FetchPageImpl dirtyVictimState 9).2.1.disk_ 9 } :=
  C5_fetch_miss_install dirtyVictimState { dirtyVictimState with replacer_ := [] }
    9 0 (by decide) (by decide) (by decide)

/-- C6 (counterexample): `unpin` does not return "found resident": on a
resident page with pin count 2 it returns false, and on a resident page
with pin count already zero it performs a removal and returns true. -/
theorem C6_unpin_not_found_flag :
    ((alFind (runOps (initBPM 1) [Op.fetchOp 0, Op.fetchOp 0]).page_table_ 0).isSome = true ∧
      (UnpinPageImpl (runOps (initBPM 1) [Op.fetchOp 0, Op.fetchOp 0]) 0 false).1 = false) ∧
    ((getPage (NewPageImpl (initBPM 1)).2.1.pages_ 0).pin_count_ = 0 ∧
      (UnpinPageImpl (NewPageImpl (initBPM 1)).2.1 0 false).1 = true ∧
      alFind (UnpinPageImpl (NewPageImpl (initBPM 1)).2.1 0 false).2.1.page_table_ 0 = none) := by
  decide

/-- C6 (amended): `unpin(id, d)` returns true exactly when the
identifier is resident and the saturating decrement leaves the frame's
pin count at zero (in which case the entry is removed); a non-resident
identifier and a still-pinned resident page both yield false. -/
theorem C6_unpin_true_iff (s : BufferPoolManager) (pid : Int) (d : Bool) :
    (UnpinPageImpl s pid d).1 = true ↔
      ∃ fid, alFind s.page_table_ pid = some fid ∧
        satDec (getPage s.pages_ fid).pin_count_ = 0 := by
  unfold UnpinPageImpl
  rcases hf : alFind s.page_table_ pid with _ | fid
  · simp [hf]
  · simp only [hf]
    split
    · next h1 =>
      split
      · next h2 =>
        refine ⟨fun _ => ⟨fid, rfl, ?_⟩, fun _ => rfl⟩
        unfold satDec
        rw [if_pos h1]
        exact h2
      · next h2 =>
        constructor
        · intro hfalse
          exact absurd hfalse (by simp)
        · rintro ⟨fid1, hf1, hz⟩
          obtain rfl : fid = fid1 := Option.some.inj (hf ▸ hf1)
          unfold satDec at hz
          rw [if_pos h1] at hz
          exact absurd hz h2
    · next h1 =>
      split
      · next h2 =>
        refine ⟨fun _ => ⟨fid, rfl, ?_⟩, fun _ => rfl⟩
        unfold satDec
        rw [if_neg h1]
        exact h2
      · next h2 =>
        constructor
        · intro hfalse
          exact absurd hfalse (by simp)
        · rintro ⟨fid1, hf1, hz⟩
          obtain rfl : fid = fid1 := Option.some.inj (hf ▸ hf1)
          unfold satDec at hz
          rw [if_neg h1] at hz
          exact absurd hz h2

/-- C7 (counterexample): `delete_page` on a dirty, unpinned resident
page resets the frame's identifier to the sentinel without issuing any
disk write, so a dirty frame's identifier is reset with no write-back. -/
theorem C7_delete_discards_dirty_frame :
    (getPage dirtyResidentState.pages_ 0).is_dirty_ = true ∧
    (DeletePageImpl dirtyResidentState 5).1 = true ∧
    (DeletePageImpl dirtyResidentState 5).2.2 = [] ∧
    (getPage (DeletePageImpl dirtyResidentState 5).2.1.pages_ 0).page_id_ =
      INVALID_PAGE_ID := by
  decide

/-- C7 (amended): when fetch reuses a victim frame whose dirty flag is
true, the trace is exactly the write-back of the victim's buffer under
its old identifier followed by the read of the new page, and the new
identifier is installed afterwards in the resulting state; `delete_page`
and `new_page` give no such guarantee. -/
theorem C7_fetch_writes_back_dirty_victim (s s1 : BufferPoolManager)
    (pid : Int) (fid : Nat)
    (hmiss : alFind s.page_table_ pid = none)
    (hvic : GetVictimPage s = (some fid, s1))
    (hdirty : (getPage s.pages_ fid).is_dirty_ = true) :
    (FetchPageImpl s pid).2.2 =
      [DiskOp.writeE (getPage s.pages_ fid).page_id_ (getPage s.pages_ fid).data_,
        DiskOp.readE pid] ∧
    alFind (FetchPageImpl s pid).2.1.page_table_ pid = some fid := by
  obtain ⟨hp, hpt, hd⟩ := getVictim_some_frames hvic
  refine ⟨?_, ?_⟩
  · unfold FetchPageImpl
    simp only [hmiss, hvic, hp, hd, hdirty]
    simp
  · unfold FetchPageImpl
    simp only [hmiss, hvic]
    exact alFind_alInsert_self _ _ _

/-- C7 (witness): the write-before-read trace holds concretely when
fetching page 9 into the dirty one-frame pool. -/
theorem C7_fetch_writes_back_dirty_victim_witness :
    (FetchPageImpl dirtyVictimState 9).2.2 =
      [DiskOp.writeE (getPage dirtyVictimState.pages_ 0).page_id_
          (getPage dirtyVictimState.pages_ 0).data_,
        DiskOp.readE 9] ∧
    alFind (FetchPageImpl dirtyVictimState 9).2.1.page_table_ 9 = some 0 :=
  C7_fetch_writes_back_dirty_victim dirtyVictimState
    { dirtyVictimState with replacer_ := [] } 9 0 (by decide) (by decide) (by decide)

/-- C8 (counterexample): fetching the non-resident page 1 on a fully
pinned one-frame pool issues no persistent-store read at all, not
exactly one as claimed. -/
theorem C8_exhausted_fetch_reads_nothing :
    alFind (runOps (initBPM 1) [Op.fetchOp 0]).page_table_ 1 = none ∧
    readsOf (FetchPageImpl (runOps (initBPM 1) [Op.fetchOp 0]) 1).2.2 = [] := by
  decide

/-- C8 (amended): a fetch of a resident page issues no read; a fetch of
a non-resident page issues exactly one read — of the requested
identifier — when a victim frame is obtained, and none when the pool is
exhausted. -/
theorem C8_fetch_read_events (s : BufferPoolManager) (pid : Int) :
    readsOf (FetchPageImpl s pid).2.2 =
      (match alFind s.page_table_ pid with
        | some _ => []
        | none =>
          match (GetVictimPage s).1 with
          | some _ => [DiskOp.readE pid]
          | none => []) := by
  unfold FetchPageImpl
  rcases hf : alFind s.page_table_ pid with _ | fid
  · rcases hv : GetVictimPage s with ⟨ov, s1⟩
    rcases ov with _ | fid
    · simp [hf, hv, readsOf]
    · by_cases hd : (getPage s1.pages_ fid).is_dirty_ = true <;>
        simp [hf, hv, hd, readsOf]
  · simp [hf, readsOf]

/-- C9: `delete_page` never issues any persistent-store operation — in
particular no `deallocate_page` call — even when it succeeds in removing
a resident page, as on the one-frame pool after `new_page`. -/
theorem C9_delete_never_deallocates :
    (∀ (s : BufferPoolManager) (pid : Int), (DeletePageImpl s pid).2.2 = []) ∧
    (alFind (NewPageImpl (initBPM 1)).2.1.page_table_ 0 = some 0 ∧
      (DeletePageImpl (NewPageImpl (initBPM 1)).2.1 0).1 = true ∧
      (DeletePageImpl (NewPageImpl (initBPM 1)).2.1 0).2.2 = []) := by
  constructor
  · intro s pid
    unfold DeletePageImpl
    rcases hf : alFind s.page_table_ pid with _ | fid
    · simp [hf]
    · simp only [hf]
      split <;> rfl
  · decide

/-- C10: `delete_page` on a resident page with positive pin count fails
and returns the state completely unchanged, issuing no disk operation. -/
theorem C10_delete_pinned_no_effect (s : BufferPoolManager) (pid : Int) (fid : Nat)
    (hf : alFind s.page_table_ pid = some fid)
    (hpin : 0 < (getPage s.pages_ fid).pin_count_) :
    DeletePageImpl s pid = (false, s, []) := by
  unfold DeletePageImpl
  simp only [hf]
  rw [if_pos hpin]

/-- C10 (witness): deleting the pinned resident page 0 right after
fetching it on a one-frame pool fails and changes nothing. -/
theorem C10_delete_pinned_no_effect_witness :
    DeletePageImpl (runOps (initBPM 1) [Op.fetchOp 0]) 0 =
      (false, runOps (initBPM 1) [Op.fetchOp 0], []) :=
  C10_delete_pinned_no_effect (runOps (initBPM 1) [Op.fetchOp 0]) 0 0
    (by decide) (by decide)

end BusTub
